import Mathlib

/-!
Verification of the repo-swarm CLI (`reposwarm_cli.py`) against its
natural-language specification.

The Python program is embedded shallowly:

* pure string manipulation (repository-name derivation, tree rendering,
  prompt assembly, truncation) is translated into executable Lean
  functions over `String` and `List Char`;
* external effects (the `mkdir` call, the `git clone` subprocess, the
  prompt-catalog filesystem probes, the `curl` call and the JSON parse of
  its output, the output-file write) are modelled as fields of explicit
  "world" structures: each field records the outcome the outside world
  gives to the corresponding call, with `Except String` modelling a
  raised Python exception carrying its message;
* the filesystem effect the claims care about (existence of the
  per-invocation clone directory) is threaded as explicit state.

Python `str` values are sequences of code points, which `String` models
exactly; `str.replace` and `str.split` are re-implemented below as
structural recursions over `List Char` so that every definition reduces
inside the kernel.
-/

/-- Models Python `str.replace(pat, rep)` for a non-empty pattern
`p :: ps`: leftmost non-overlapping occurrences are replaced in one
pass.  The `Nat` argument is fuel; it is instantiated with the length
of the subject list, which always suffices because every step consumes
at least one character. -/
def replaceAllF (p : Char) (ps rep : List Char) : Nat → List Char → List Char
  | 0, s => s
  | _ + 1, [] => []
  | fuel + 1, c :: rest =>
    if (p :: ps).isPrefixOf (c :: rest) then
      rep ++ replaceAllF p ps rep fuel (rest.drop ps.length)
    else
      c :: replaceAllF p ps rep fuel rest

/-- Python `s.replace(pat, rep)`.  An empty pattern never occurs in the
program; for it we return `s` unchanged. -/
def pyReplace (s pat rep : String) : String :=
  match pat.data with
  | [] => s
  | p :: ps => String.mk (replaceAllF p ps rep.data s.data.length s.data)

/-- Python `s.split(sep)` for a single-character separator: always
returns at least one (possibly empty) segment. -/
def pySplit (sep : Char) : List Char → List (List Char)
  | [] => [[]]
  | c :: rest =>
    match pySplit sep rest with
    | [] => [[]]
    | g :: gs => if c = sep then [] :: g :: gs else (c :: g) :: gs

/-- Line 43 of reposwarm_cli.py: the last slash-separated segment of
the URL with every occurrence of `.git` removed. -/
def repoNameOf (url : String) : String :=
  pyReplace (String.mk (((pySplit '/' url.data).getLastD []))) ".git" ""

/-- Line 44: the output artifact path, with `Path` division modelled
as joining with a slash. -/
def outputFileOf (outputDir url : String) : String :=
  outputDir ++ "/" ++ repoNameOf url ++ ".arch.md"

/-! Directory trees and `_build_file_tree` -/

/-- A directory entry of the cloned repository: the data `iterdir`
enumerates, with `dir` carrying the child entries in enumeration
order. -/
inductive Entry where
  | file (nm : String)
  | dir (nm : String) (children : List Entry)

/-- The entry name, `item.name` in Python. -/
def Entry.name : Entry → String
  | .file nm => nm
  | .dir nm _ => nm

/-- Python `item.is_dir()`. -/
def Entry.isDir : Entry → Bool
  | .file _ => false
  | .dir _ _ => true

/-- Children of an entry; a file has none. -/
def Entry.childrenD : Entry → List Entry
  | .file _ => []
  | .dir _ cs => cs

/-- Lexicographic comparison of code-point sequences: the order Python
uses on `str`. -/
def lexLe : List Char → List Char → Bool
  | [], _ => true
  | _ :: _, [] => false
  | a :: as, b :: bs => if a = b then lexLe as bs else decide (a < b)

/-- The sort key `(not x.is_dir(), x.name)` of line 137, compared
lexicographically: directories first, then by name. -/
def entryLeB (a b : Entry) : Bool :=
  if a.isDir = b.isDir then lexLe a.name.data b.name.data else a.isDir

/-- The relation form of `entryLeB`. -/
def entryLe (a b : Entry) : Prop := entryLeB a b = true

instance : DecidableRel entryLe :=
  fun a b => inferInstanceAs (Decidable (entryLeB a b = true))

/-- Python `sorted(path.iterdir(), key=lambda x: (not x.is_dir(), x.name))`:
a stable sort by `entryLe`.  Insertion sort is stable, hence
extensionally equal to the sort Python performs. -/
def sortEntries (cs : List Entry) : List Entry := List.insertionSort entryLe cs

/-- The ignore-set of line 140. -/
def ignoreSet : List String :=
  [".git", "node_modules", "__pycache__", "venv", ".venv", "dist", "build"]

/-- The body of the `for i, item in enumerate(items)` loop of
`walk_dir` (lines 138-150): `items` is the remaining suffix, `n` the
length of the full sorted list, `i` the current index, `pre` the
accumulated prefix.  `recur` performs the recursive `walk_dir` call for
subdirectories. -/
def walkItems (recur : List Entry → String → List String) :
    List Entry → Nat → Nat → String → List String
  | [], _, _, _ => []
  | item :: rest, n, i, pre =>
    (if ignoreSet.contains item.name then [] else
      let isLast := i = n - 1
      let cur := if isLast then "└── " else "├── "
      let nxt := if isLast then "    " else "│   "
      (pre ++ cur ++ item.name) ::
        (match item with
         | .dir _ cs => recur cs (pre ++ nxt)
         | .file _ => []))
    ++ walkItems recur rest n (i + 1) pre

/-- The function `walk_dir` of `_build_file_tree` (lines 132-152).  The fuel counts
the remaining listing levels: the Python guard `depth > max_depth`
with `max_depth = 3` and a root call at depth 0 admits exactly four
levels, i.e. fuel 4 at the root. -/
def walkDir : Nat → List Entry → String → List String
  | 0, _, _ => []
  | fuel + 1, children, pre =>
    let items := sortEntries children
    walkItems (fun cs p => walkDir fuel cs p) items items.length 0 pre

/-- The method `_build_file_tree(repo_dir)` (lines 128-155), taking the
entries of the root directory. -/
def buildFileTree (root : List Entry) : String :=
  String.intercalate "\n" (walkDir 4 root "")

/-! Order facts about the sort relation -/

theorem strDataInj (s t : String) (h : s.data = t.data) : s = t := by
  cases s; cases t; exact congrArg String.mk h

theorem lexLe_total : ∀ as bs, lexLe as bs = true ∨ lexLe bs as = true := by
  intro as
  induction as with
  | nil => intro bs; left; rfl
  | cons a as ih =>
    intro bs
    cases bs with
    | nil => right; rfl
    | cons b bs =>
      by_cases hab : a = b
      · subst hab
        rcases ih bs with h | h
        · left; simpa [lexLe] using h
        · right; simpa [lexLe] using h
      · rcases lt_trichotomy a b with hlt | heq | hgt
        · left; simp [lexLe, hab, hlt]
        · exact absurd heq hab
        · right; simp [lexLe, Ne.symm hab, hgt]

theorem lexLe_trans :
    ∀ as bs cs, lexLe as bs = true → lexLe bs cs = true → lexLe as cs = true := by
  intro as
  induction as with
  | nil => intro bs cs _ _; rfl
  | cons a as ih =>
    intro bs cs h1 h2
    cases bs with
    | nil => simp [lexLe] at h1
    | cons b bs =>
      cases cs with
      | nil => simp [lexLe] at h2
      | cons c cs =>
        by_cases hab : a = b <;> by_cases hbc : b = c
        · subst hab; subst hbc
          simp only [lexLe, if_pos rfl] at h1 h2 ⊢
          exact ih bs cs h1 h2
        · subst hab
          simp only [lexLe, if_pos rfl, if_neg hbc, decide_eq_true_eq] at h2 ⊢
          exact h2
        · subst hbc
          simp only [lexLe, if_pos rfl, if_neg hab, decide_eq_true_eq] at h1 ⊢
          exact h1
        · simp only [lexLe, if_neg hab, if_neg hbc, decide_eq_true_eq] at h1 h2
          have hac : a < c := lt_trans h1 h2
          simp [lexLe, ne_of_lt hac, hac]

theorem lexLe_antisymm :
    ∀ as bs, lexLe as bs = true → lexLe bs as = true → as = bs := by
  intro as
  induction as with
  | nil =>
    intro bs _ h2
    cases bs with
    | nil => rfl
    | cons b bs => simp [lexLe] at h2
  | cons a as ih =>
    intro bs h1 h2
    cases bs with
    | nil => simp [lexLe] at h1
    | cons b bs =>
      by_cases hab : a = b
      · subst hab
        simp only [lexLe, if_pos rfl] at h1 h2
        exact congrArg (a :: ·) (ih bs h1 h2)
      · simp only [lexLe, if_neg hab, decide_eq_true_eq] at h1
        simp only [lexLe, if_neg (Ne.symm hab), decide_eq_true_eq] at h2
        exact absurd h2 (lt_asymm h1)

instance : IsTotal Entry entryLe := by
  constructor
  intro a b
  unfold entryLe entryLeB
  by_cases h : a.isDir = b.isDir
  · rw [if_pos h, if_pos h.symm]
    exact lexLe_total _ _
  · rw [if_neg h, if_neg (Ne.symm h)]
    cases ha : a.isDir with
    | true => left; rfl
    | false => right; cases hb : b.isDir with
      | true => rfl
      | false => exact absurd (ha.trans hb.symm) h

instance : IsTrans Entry entryLe := by
  constructor
  intro a b c h1 h2
  unfold entryLe entryLeB at h1 h2 ⊢
  cases ha : a.isDir <;> cases hb : b.isDir <;> cases hc : c.isDir <;>
    simp_all
  · exact lexLe_trans _ _ _ h1 h2
  · exact lexLe_trans _ _ _ h1 h2

theorem entryLe_antisymm_name (a b : Entry)
    (h1 : entryLe a b) (h2 : entryLe b a) : a.name = b.name := by
  unfold entryLe entryLeB at h1 h2
  by_cases h : a.isDir = b.isDir
  · rw [if_pos h] at h1
    rw [if_pos h.symm] at h2
    exact strDataInj _ _ (lexLe_antisymm _ _ h1 h2)
  · rw [if_neg h] at h1
    rw [if_neg (Ne.symm h)] at h2
    exact absurd (h1.trans h2.symm) h

/-- C10: the derived repository name is the last slash-separated segment
of the URL with every occurrence of the substring `.git` removed (not
only a trailing suffix), and the output artifact path is
`<output-dir>/<name>.arch.md`.  The second conjunct shows the
mid-segment occurrence in `my.github-tools` being excised, the third
the ordinary trailing case. -/
theorem repoName_replace_all :
    (∀ outputDir url,
        outputFileOf outputDir url = outputDir ++ "/" ++ repoNameOf url ++ ".arch.md")
    ∧ repoNameOf "https://github.com/user/my.github-tools" = "myhub-tools"
    ∧ repoNameOf "https://github.com/user/repo.git" = "repo" :=
  ⟨fun _ _ => rfl, by decide, by decide⟩

/-! C4: the connector rule of the tree renderer

Here `renderClaim` follows the words of the claim: ignored entries are skipped
first, and the last *rendered* sibling receives the `└── ` connector.
`renderAmended` follows the code: the `└── ` connector goes to the
entry in the last position of the *sorted* sibling list, ignored
entries included, because `is_last` is computed from `enumerate` over
the unfiltered list (line 143). -/

def renderClaim (recur : List Entry → String → List String) (pre : String) :
    List Entry → List String
  | [] => []
  | item :: rest =>
    let isLast := rest.isEmpty
    let cur := if isLast then "└── " else "├── "
    let nxt := if isLast then "    " else "│   "
    ((pre ++ cur ++ item.name) ::
      (match item with
       | .dir _ cs => recur cs (pre ++ nxt)
       | .file _ => []))
    ++ renderClaim recur pre rest

/-- The tree walk as the claim describes it (skip, then mark the last
rendered sibling). -/
def walkClaim : Nat → List Entry → String → List String
  | 0, _, _ => []
  | fuel + 1, children, pre =>
    renderClaim (fun cs p => walkClaim fuel cs p) pre
      ((sortEntries children).filter (fun e => !ignoreSet.contains e.name))

/-- The tree builder as the claim describes it. -/
def buildFileTreeClaim (root : List Entry) : String :=
  String.intercalate "\n" (walkClaim 4 root "")

def renderAmended (recur : List Entry → String → List String) (pre : String) :
    List Entry → List String
  | [] => []
  | item :: rest =>
    (if ignoreSet.contains item.name then [] else
      let isLast := rest.isEmpty
      let cur := if isLast then "└── " else "├── "
      let nxt := if isLast then "    " else "│   "
      (pre ++ cur ++ item.name) ::
        (match item with
         | .dir _ cs => recur cs (pre ++ nxt)
         | .file _ => []))
    ++ renderAmended recur pre rest

/-- The tree walk as the amended claim describes it (the `└── `
connector marks the last position of the sorted list, ignored entries
included). -/
def walkAmended : Nat → List Entry → String → List String
  | 0, _, _ => []
  | fuel + 1, children, pre =>
    renderAmended (fun cs p => walkAmended fuel cs p) pre (sortEntries children)

/-- The tree builder as the amended claim describes it. -/
def buildFileTreeAmended (root : List Entry) : String :=
  String.intercalate "\n" (walkAmended 4 root "")

theorem renderAmended_congr (f g : List Entry → String → List String)
    (h : ∀ cs p, f cs p = g cs p) :
    ∀ (pre : String) (items : List Entry),
      renderAmended f pre items = renderAmended g pre items := by
  intro pre items
  induction items with
  | nil => rfl
  | cons item rest ih =>
    simp only [renderAmended, ih, h]

theorem walkItems_cons (recur : List Entry → String → List String)
    (item : Entry) (rest : List Entry) (n i : Nat) (pre : String) :
    walkItems recur (item :: rest) n i pre =
      (if ignoreSet.contains item.name then [] else
        (pre ++ (if i = n - 1 then "└── " else "├── ") ++ item.name) ::
          (match item with
           | .dir _ cs => recur cs (pre ++ (if i = n - 1 then "    " else "│   "))
           | .file _ => []))
      ++ walkItems recur rest n (i + 1) pre := rfl

theorem renderAmended_cons (recur : List Entry → String → List String)
    (pre : String) (item : Entry) (rest : List Entry) :
    renderAmended recur pre (item :: rest) =
      (if ignoreSet.contains item.name then [] else
        (pre ++ (if rest.isEmpty then "└── " else "├── ") ++ item.name) ::
          (match item with
           | .dir _ cs => recur cs (pre ++ (if rest.isEmpty then "    " else "│   "))
           | .file _ => []))
      ++ renderAmended recur pre rest := rfl

theorem walkItems_cons_file (recur : List Entry → String → List String)
    (nm : String) (rest : List Entry) (n i : Nat) (pre : String) :
    walkItems recur (Entry.file nm :: rest) n i pre =
      (if ignoreSet.contains nm then [] else
        [pre ++ (if i = n - 1 then "└── " else "├── ") ++ nm])
      ++ walkItems recur rest n (i + 1) pre := rfl

theorem walkItems_cons_dir (recur : List Entry → String → List String)
    (nm : String) (cs rest : List Entry) (n i : Nat) (pre : String) :
    walkItems recur (Entry.dir nm cs :: rest) n i pre =
      (if ignoreSet.contains nm then [] else
        (pre ++ (if i = n - 1 then "└── " else "├── ") ++ nm) ::
          recur cs (pre ++ (if i = n - 1 then "    " else "│   ")))
      ++ walkItems recur rest n (i + 1) pre := rfl

theorem walkItems_eq_renderAmended
    (recur : List Entry → String → List String) :
    ∀ (items : List Entry) (n i : Nat) (pre : String),
      n = i + items.length →
      walkItems recur items n i pre = renderAmended recur pre items := by
  intro items
  induction items with
  | nil => intro n i pre _; rfl
  | cons item rest ih =>
    intro n i pre hn
    cases rest with
    | nil =>
      have hlast : i = n - 1 := by simp at hn; omega
      rw [walkItems_cons, renderAmended_cons]
      simp only [if_pos hlast, List.isEmpty_nil, if_pos rfl]
      rfl
    | cons r rs =>
      have hne : ¬ i = n - 1 := by simp [List.length_cons] at hn; omega
      have htail := ih n (i + 1) pre (by simp [List.length_cons] at hn ⊢; omega)
      rw [walkItems_cons, renderAmended_cons, htail]
      simp only [if_neg hne, List.isEmpty_cons, Bool.false_eq_true, if_false]

theorem walkAmended_eq_walkDir :
    ∀ (fuel : Nat) (cs : List Entry) (pre : String),
      walkAmended fuel cs pre = walkDir fuel cs pre := by
  intro fuel
  induction fuel with
  | zero => intro cs pre; rfl
  | succ fuel ih =>
    intro cs pre
    show renderAmended (fun cs p => walkAmended fuel cs p) pre (sortEntries cs) = _
    rw [renderAmended_congr _ _ (fun cs p => ih cs p)]
    exact (walkItems_eq_renderAmended (fun cs p => walkDir fuel cs p)
      (sortEntries cs) (sortEntries cs).length 0 pre (by omega)).symm

/-- C4, amended: the renderer sorts children directories-first then
lexicographically, skips ignored names, and gives the `└── ` connector
(and the blank continuation prefix) to the sibling in the last
position of the sorted list counting skipped ignored entries — so when
the last sorted sibling is ignored, no rendered sibling of that
directory uses `└── `. -/
theorem buildFileTree_spec_amended :
    ∀ root : List Entry, buildFileTreeAmended root = buildFileTree root :=
  fun root => congrArg (String.intercalate "\n") (walkAmended_eq_walkDir 4 root "")

/-- C4, counterexample to the claim as stated: with children `src` and
`venv` (both directories), `venv` sorts last and is skipped, so the
last rendered sibling `src` keeps the `├── ` connector, while the
reading of the claim (last rendered sibling gets `└── `) predicts
`└── src`. -/
theorem buildFileTree_last_rendered_counterexample :
    buildFileTree [Entry.dir "src" [], Entry.dir "venv" []] = "├── src"
    ∧ buildFileTreeClaim [Entry.dir "src" [], Entry.dir "venv" []] = "└── src" :=
  ⟨by decide, by decide⟩

/-! C9: determinism of the tree renderer

A run of `_build_file_tree` over a fixed on-disk directory structure
sees the children of every directory in whatever order `iterdir`
happens to enumerate them.  Two runs over the same structure are
therefore modelled by two `Entry` forests related by `equivC`: at every
level, one child list is a permutation of the other, with recursively
related subtrees.  `nodupTree` records the filesystem fact that a
directory cannot contain two equally named entries (up to the explored
depth). -/

/-- Forests describing the same directory structure up to enumeration
order, observed down to `fuel` listing levels. -/
def equivC : Nat → List Entry → List Entry → Prop
  | 0, _, _ => True
  | fuel + 1, cs, cs' =>
    ∃ ds, List.Forall₂ (fun a b =>
        match a, b with
        | .file n, .file m => n = m
        | .dir n as, .dir m bs => n = m ∧ equivC fuel as bs
        | _, _ => False) cs ds ∧ ds.Perm cs'

/-- Entries describing the same file or directory up to enumeration
order of subdirectories. -/
def equivE (fuel : Nat) (a b : Entry) : Prop :=
  match a, b with
  | .file n, .file m => n = m
  | .dir n as, .dir m bs => n = m ∧ equivC fuel as bs
  | _, _ => False

theorem equivC_succ (fuel : Nat) (cs cs' : List Entry) :
    equivC (fuel + 1) cs cs' ↔
      ∃ ds, List.Forall₂ (equivE fuel) cs ds ∧ ds.Perm cs' := Iff.rfl

/-- No two sibling entries share a name, down to `fuel` levels. -/
def nodupTree : Nat → List Entry → Prop
  | 0, _ => True
  | fuel + 1, cs =>
    (cs.map Entry.name).Nodup ∧ ∀ e ∈ cs, nodupTree fuel e.childrenD

instance nodupTreeDec : ∀ (fuel : Nat) (cs : List Entry), Decidable (nodupTree fuel cs)
  | 0, _ => isTrue trivial
  | fuel + 1, cs =>
    haveI : DecidablePred (fun e : Entry => nodupTree fuel e.childrenD) :=
      fun e => nodupTreeDec fuel e.childrenD
    inferInstanceAs (Decidable (_ ∧ ∀ e ∈ cs, nodupTree fuel e.childrenD))

theorem equivE_keyEq (fuel : Nat) (a b : Entry) (h : equivE fuel a b) :
    a.name = b.name ∧ a.isDir = b.isDir := by
  cases a <;> cases b <;> simp [equivE] at h <;> simp [Entry.name, Entry.isDir]
  · exact h
  · exact h.1

theorem entryLeB_congr (a a' b b' : Entry)
    (ha : a.name = a'.name ∧ a.isDir = a'.isDir)
    (hb : b.name = b'.name ∧ b.isDir = b'.isDir) :
    entryLeB a b = entryLeB a' b' := by
  unfold entryLeB
  rw [ha.1, ha.2, hb.1, hb.2]

theorem orderedInsert_forall₂ (fuel : Nat) (a b : Entry) (hab : equivE fuel a b) :
    ∀ {l l' : List Entry}, List.Forall₂ (equivE fuel) l l' →
      List.Forall₂ (equivE fuel)
        (List.orderedInsert entryLe a l) (List.orderedInsert entryLe b l') := by
  intro l l' h
  induction h with
  | nil => exact List.Forall₂.cons hab List.Forall₂.nil
  | @cons c d t t' hcd hrest ih =>
    have hiff : entryLe a c ↔ entryLe b d := by
      unfold entryLe
      rw [entryLeB_congr a b c d (equivE_keyEq _ _ _ hab) (equivE_keyEq _ _ _ hcd)]
    by_cases hac : entryLe a c
    · simp only [List.orderedInsert, if_pos hac, if_pos (hiff.mp hac)]
      exact List.Forall₂.cons hab (List.Forall₂.cons hcd hrest)
    · simp only [List.orderedInsert, if_neg hac, if_neg (fun h => hac (hiff.mpr h))]
      exact List.Forall₂.cons hcd ih

theorem insertionSort_forall₂ (fuel : Nat) :
    ∀ {l l' : List Entry}, List.Forall₂ (equivE fuel) l l' →
      List.Forall₂ (equivE fuel) (sortEntries l) (sortEntries l') := by
  intro l l' h
  induction h with
  | nil => exact List.Forall₂.nil
  | @cons a b t t' hab hrest ih =>
    simp only [sortEntries, List.insertionSort]
    exact orderedInsert_forall₂ fuel a b hab ih

theorem forall₂_names (fuel : Nat) :
    ∀ {l l' : List Entry}, List.Forall₂ (equivE fuel) l l' →
      l.map Entry.name = l'.map Entry.name := by
  intro l l' h
  induction h with
  | nil => rfl
  | @cons a b t t' hab _ ih =>
    simp only [List.map_cons, (equivE_keyEq fuel a b hab).1, ih]

theorem sorted_perm_nodup_eq :
    ∀ (l l' : List Entry), l.Perm l' → l.Sorted entryLe → l'.Sorted entryLe →
      (l.map Entry.name).Nodup → l = l' := by
  intro l
  induction l with
  | nil => intro l' hp _ _ _; exact hp.nil_eq
  | cons a t ih =>
    intro l' hp hs hs' hn
    cases l' with
    | nil => exact absurd hp.eq_nil (List.cons_ne_nil a t)
    | cons b t' =>
      by_cases hab : a = b
      · subst hab
        have hnt : (t.map Entry.name).Nodup := by
          simp only [List.map_cons, List.nodup_cons] at hn
          exact hn.2
        rw [ih t' hp.cons_inv hs.of_cons hs'.of_cons hnt]
      · exfalso
        have hbt : b ∈ t := by
          rcases List.mem_cons.mp (hp.mem_iff.mpr (List.mem_cons_self b t')) with h | h
          · exact absurd h.symm hab
          · exact h
        have hat' : a ∈ t' := by
          rcases List.mem_cons.mp (hp.mem_iff.mp (List.mem_cons_self a t)) with h | h
          · exact absurd h hab
          · exact h
        have h1 : entryLe a b := (List.sorted_cons.mp hs).1 b hbt
        have h2 : entryLe b a := (List.sorted_cons.mp hs').1 a hat'
        have hname : a.name = b.name := entryLe_antisymm_name a b h1 h2
        have hnot : a.name ∉ t.map Entry.name := by
          simp only [List.map_cons, List.nodup_cons] at hn
          exact hn.1
        exact hnot (hname ▸ List.mem_map_of_mem Entry.name hbt)

theorem sortEntries_eq_of_perm (l l' : List Entry) (hp : l.Perm l')
    (hn : (l.map Entry.name).Nodup) : sortEntries l = sortEntries l' := by
  apply sorted_perm_nodup_eq
  · exact (List.perm_insertionSort entryLe l).trans
      (hp.trans (List.perm_insertionSort entryLe l').symm)
  · exact List.sorted_insertionSort entryLe l
  · exact List.sorted_insertionSort entryLe l'
  · exact (((List.perm_insertionSort entryLe l).map Entry.name).nodup_iff).mpr hn

theorem walkItems_equiv (fuel : Nat)
    (IH : ∀ cs cs' pre, equivC fuel cs cs' → nodupTree fuel cs →
      walkDir fuel cs pre = walkDir fuel cs' pre) :
    ∀ {items items' : List Entry}, List.Forall₂ (equivE fuel) items items' →
      (∀ e ∈ items, nodupTree fuel e.childrenD) →
      ∀ n i pre,
        walkItems (fun cs p => walkDir fuel cs p) items n i pre
          = walkItems (fun cs p => walkDir fuel cs p) items' n i pre := by
  intro items items' h
  induction h with
  | nil => intros; rfl
  | @cons a b l l' hab hrest ih =>
    intro hnod n i pre
    have htail := ih (fun e he => hnod e (List.mem_cons_of_mem a he)) n (i + 1) pre
    cases a with
    | file n₁ =>
      cases b with
      | file n₂ =>
        have hname : n₁ = n₂ := hab
        subst hname
        rw [walkItems_cons_file, walkItems_cons_file, htail]
      | dir n₂ bs => exact absurd hab (by simp [equivE])
    | dir n₁ as =>
      cases b with
      | file n₂ => exact absurd hab (by simp [equivE])
      | dir n₂ bs =>
        obtain ⟨hname, hcc⟩ : n₁ = n₂ ∧ equivC fuel as bs := hab
        subst hname
        have hnas : nodupTree fuel as :=
          hnod (Entry.dir n₁ as) (List.mem_cons_self _ _)
        rw [walkItems_cons_dir, walkItems_cons_dir, htail, IH as bs _ hcc hnas]

theorem walkDir_equiv :
    ∀ (fuel : Nat) (cs cs' : List Entry) (pre : String),
      equivC fuel cs cs' → nodupTree fuel cs →
      walkDir fuel cs pre = walkDir fuel cs' pre := by
  intro fuel
  induction fuel with
  | zero => intros; rfl
  | succ fuel ih =>
    intro cs cs' pre hc hn
    obtain ⟨ds, hf, hperm⟩ := (equivC_succ fuel cs cs').mp hc
    obtain ⟨hnames, hkids⟩ := hn
    have hnamesds : ds.map Entry.name = cs.map Entry.name :=
      (forall₂_names fuel hf).symm
    have hndds : (ds.map Entry.name).Nodup := hnamesds ▸ hnames
    have hsort_eq : sortEntries ds = sortEntries cs' :=
      sortEntries_eq_of_perm ds cs' hperm hndds
    have hf2 : List.Forall₂ (equivE fuel) (sortEntries cs) (sortEntries ds) :=
      insertionSort_forall₂ fuel hf
    show walkItems _ (sortEntries cs) (sortEntries cs).length 0 pre
      = walkItems _ (sortEntries cs') (sortEntries cs').length 0 pre
    rw [← hsort_eq, ← hf2.length_eq]
    exact walkItems_equiv fuel ih hf2
      (fun e he => hkids e ((List.perm_insertionSort entryLe cs).subset he))
      (sortEntries cs).length 0 pre

theorem walkItems_shape
    (recur : List Entry → String → List String)
    (hrec : ∀ cs p line, line ∈ recur cs p →
      ∃ q nm, (line = q ++ "├── " ++ nm ∨ line = q ++ "└── " ++ nm)
        ∧ ignoreSet.contains nm = false) :
    ∀ (items : List Entry) (n i : Nat) (pre : String) (line : String),
      line ∈ walkItems recur items n i pre →
      ∃ q nm, (line = q ++ "├── " ++ nm ∨ line = q ++ "└── " ++ nm)
        ∧ ignoreSet.contains nm = false := by
  intro items
  induction items with
  | nil => intro n i pre line h; simp [walkItems] at h
  | cons item rest ih =>
    intro n i pre line h
    rw [walkItems_cons] at h
    rcases List.mem_append.mp h with h1 | h2
    · cases hig : ignoreSet.contains item.name with
      | true => rw [if_pos hig] at h1; simp at h1
      | false =>
        rw [if_neg (by rw [hig]; exact Bool.false_ne_true)] at h1
        rcases List.mem_cons.mp h1 with hline | hsub
        · refine ⟨pre, item.name, ?_, hig⟩
          by_cases hlast : i = n - 1
          · right; rw [hline, if_pos hlast]
          · left; rw [hline, if_neg hlast]
        · cases item with
          | file nm => simp at hsub
          | dir nm cs => exact hrec cs _ line hsub
    · exact ih n (i + 1) pre line h2

theorem walkDir_shape :
    ∀ (fuel : Nat) (cs : List Entry) (pre : String) (line : String),
      line ∈ walkDir fuel cs pre →
      ∃ q nm, (line = q ++ "├── " ++ nm ∨ line = q ++ "└── " ++ nm)
        ∧ ignoreSet.contains nm = false := by
  intro fuel
  induction fuel with
  | zero => intro cs pre line h; simp [walkDir] at h
  | succ fuel ih =>
    intro cs pre line h
    exact walkItems_shape _ (fun cs p line h => ih cs p line h)
      (sortEntries cs) (sortEntries cs).length 0 pre line h

theorem equivE_equivC_refl :
    ∀ fuel : Nat, (∀ e, equivE fuel e e) ∧ (∀ cs, equivC fuel cs cs) := by
  intro fuel
  induction fuel with
  | zero =>
    refine ⟨fun e => ?_, fun cs => trivial⟩
    cases e with
    | file n => exact rfl
    | dir n cs => exact ⟨rfl, trivial⟩
  | succ fuel ih =>
    have hC : ∀ cs, equivC (fuel + 1) cs cs := fun cs =>
      (equivC_succ fuel cs cs).mpr
        ⟨cs, List.forall₂_same.mpr (fun x _ => ih.1 x), List.Perm.refl cs⟩
    refine ⟨fun e => ?_, hC⟩
    cases e with
    | file n => exact rfl
    | dir n cs => exact ⟨rfl, hC cs⟩

theorem equivC_of_perm (fuel : Nat) (cs cs' : List Entry) (h : cs.Perm cs') :
    equivC fuel cs cs' := by
  cases fuel with
  | zero => trivial
  | succ fuel =>
    exact (equivC_succ fuel cs cs').mpr
      ⟨cs, List.forall₂_same.mpr (fun x _ => (equivE_equivC_refl fuel).1 x), h⟩

/-- C9: (i) the tree text is a function of the directory structure
alone — two enumerations of the same structure (same entries at every
level up to order, no duplicate sibling names) render byte-identical
text; (ii) every rendered line is built from a connector and an entry
name that is not in the ignore-set, so ignored names never appear as
entries of the tree. -/
theorem buildFileTree_deterministic :
    (∀ root root', equivC 4 root root' → nodupTree 4 root →
        buildFileTree root = buildFileTree root')
    ∧ (∀ fuel cs pre line, line ∈ walkDir fuel cs pre →
        ∃ q nm, (line = q ++ "├── " ++ nm ∨ line = q ++ "└── " ++ nm)
          ∧ ignoreSet.contains nm = false) :=
  ⟨fun root root' hc hn =>
      congrArg (String.intercalate "\n") (walkDir_equiv 4 root root' "" hc hn),
    walkDir_shape⟩

/-- Witness: the two-entry forest `[dir b, file a]` re-enumerated as
`[file a, dir b]` renders identically, and the rendered line `├── b`
decomposes as required. -/
theorem buildFileTree_deterministic_witness :
    buildFileTree [Entry.dir "b" [], Entry.file "a"]
        = buildFileTree [Entry.file "a", Entry.dir "b" []]
    ∧ ∃ q nm, ("├── b" = q ++ "├── " ++ nm ∨ "├── b" = q ++ "└── " ++ nm)
        ∧ ignoreSet.contains nm = false :=
  ⟨buildFileTree_deterministic.1 _ _
      (equivC_of_perm 4 _ _ (List.Perm.swap (Entry.file "a") (Entry.dir "b" []) []))
      (by decide),
    buildFileTree_deterministic.2 4 [Entry.dir "b" [], Entry.file "a"] "" "├── b"
      (by decide)⟩

/-! C5: prompt catalog resolution

`analyze_repository` lines 71-83: `prompts_dir = Path("prompts") / repo_type`
is replaced by `prompts/shared` when the *directory* does not exist; the
catalog file `prompts.json` is then probed inside the chosen directory,
and an absent file yields the literal config `{"prompts": []}`.  The
relevant filesystem facts are the fields of `PromptsFS`; a JSON parse is
an `Except` since `json.load` can raise. -/

/-- An `InvestigationPrompt` as stored in a catalog: a JSON object whose
`name` and `description` keys may each be absent. -/
structure PromptEntry where
  name : Option String
  description : Option String
deriving DecidableEq

/-- The parsed catalog: a JSON object whose `prompts` key may be
absent (`prompts_config.get('prompts', [])` is used by the caller). -/
structure PromptsConfig where
  prompts : Option (List PromptEntry)
deriving DecidableEq

/-- Filesystem facts consulted while resolving the catalog for one
repository type. -/
structure PromptsFS where
  typeDirExists : Bool
  typeFileExists : Bool
  sharedFileExists : Bool
  typeFileJson : Except String PromptsConfig
  sharedFileJson : Except String PromptsConfig

/-- Lines 72-83 of `analyze_repository`: choose the directory by the
directory-existence probe, then probe the `prompts.json` file inside
it; an absent file yields `{"prompts": []}` without error. -/
def loadPromptsConfig (pfs : PromptsFS) : Except String PromptsConfig :=
  let useShared := !pfs.typeDirExists
  let fileExists := if useShared then pfs.sharedFileExists else pfs.typeFileExists
  if fileExists then
    (if useShared then pfs.sharedFileJson else pfs.typeFileJson)
  else Except.ok ⟨some []⟩

/-- The claim as stated: resolve `prompts/<type>/prompts.json`, falling
back to `prompts/shared/prompts.json` when the type-specific catalog
file does not exist; an absent catalog yields the empty prompt list. -/
def loadPromptsClaim (pfs : PromptsFS) : Except String PromptsConfig :=
  if pfs.typeFileExists then pfs.typeFileJson
  else if pfs.sharedFileExists then pfs.sharedFileJson
  else Except.ok ⟨some []⟩

/-- The amended claim: the fallback to the shared catalog happens when
the type-specific *directory* `prompts/<type>` does not exist; the
catalog file of the chosen directory is then loaded, an absent file
yielding the empty prompt list without error. -/
def loadPromptsAmended (pfs : PromptsFS) : Except String PromptsConfig :=
  if pfs.typeDirExists then
    (if pfs.typeFileExists then pfs.typeFileJson else Except.ok ⟨some []⟩)
  else
    (if pfs.sharedFileExists then pfs.sharedFileJson else Except.ok ⟨some []⟩)

/-- C5, amended: catalog resolution follows the directory-existence
fallback rule, and in either branch an absent catalog file yields the
empty prompt list without raising. -/
theorem loadPromptsConfig_spec_amended :
    ∀ pfs : PromptsFS,
      loadPromptsConfig pfs = loadPromptsAmended pfs
      ∧ loadPromptsConfig { pfs with typeDirExists := true, typeFileExists := false }
          = Except.ok ⟨some []⟩
      ∧ loadPromptsConfig { pfs with typeDirExists := false, sharedFileExists := false }
          = Except.ok ⟨some []⟩ := by
  intro pfs
  obtain ⟨td, tf, sf, tj, sj⟩ := pfs
  refine ⟨?_, rfl, rfl⟩
  cases td <;> cases tf <;> cases sf <;> rfl

/-- A world falsifying C5 as stated: the type directory exists but has
no catalog file, while a shared catalog file exists with one prompt. -/
def pfsCex : PromptsFS :=
  ⟨true, false, true, Except.ok ⟨some []⟩,
    Except.ok ⟨some [⟨some "security", some "Review authentication"⟩]⟩⟩

/-- C5, counterexample to the claim as stated: the code does not fall
back to the shared catalog when only the type-specific catalog *file*
is missing — it returns the empty prompt list instead. -/
theorem loadPromptsConfig_dir_fallback_counterexample :
    loadPromptsConfig pfsCex = Except.ok ⟨some []⟩
    ∧ loadPromptsClaim pfsCex
        = Except.ok ⟨some [⟨some "security", some "Review authentication"⟩]⟩
    ∧ loadPromptsConfig pfsCex ≠ loadPromptsClaim pfsCex :=
  ⟨rfl, rfl, by
    intro h
    rw [show loadPromptsConfig pfsCex = Except.ok ⟨some []⟩ from rfl,
      show loadPromptsClaim pfsCex
          = Except.ok ⟨some [⟨some "security", some "Review authentication"⟩]⟩ from rfl] at h
    simp at h⟩

/-! C6: the model invoker `_call_claude_api` (lines 244-259)

The `curl` subprocess outcome and the `json.loads` outcome are world
inputs; an `Except.error` models the raised exception (timeout,
non-parseable response) propagating out of the function.  The parsed
envelope is abstracted as `ApiResponse`: the optional `content` list
and the printed form `raw` of the whole envelope, which the error
message interpolates. -/

structure ProcResult where
  returncode : Int
  stdout : String
  stderr : String
deriving DecidableEq

structure ContentItem where
  text : Option String
deriving DecidableEq

structure ApiResponse where
  content : Option (List ContentItem)
  raw : String
deriving DecidableEq

structure ApiWorld where
  curlRun : Except String ProcResult
  parseResponse : Except String ApiResponse

/-- Lines 244-259: run curl, parse its stdout, and return
`response_data['content'][0]['text']` when the content list is present
and non-empty, otherwise raise `Claude API error: {response_data}`.
A first content element without a `text` key raises a `KeyError`,
modelled by a distinct error message. -/
def callClaudeApi (w : ApiWorld) : Except String String :=
  match w.curlRun with
  | Except.error e => Except.error e
  | Except.ok _ =>
    match w.parseResponse with
    | Except.error e => Except.error e
    | Except.ok rd =>
      match rd.content with
      | some (c :: _) =>
        (match c.text with
         | some t => Except.ok t
         | none => Except.error "KeyError: text")
      | _ => Except.error ("Claude API error: " ++ rd.raw)

/-- C6: on a parsed envelope the invoker returns the text of the first
content element when the content list is present and non-empty; a
missing or empty content list fails with a message carrying the raw
envelope; a non-parseable response or a failed transport call also
fails, with the raised message. -/
theorem callClaudeApi_content_extraction :
    ∀ (w : ApiWorld) (pr : ProcResult) (rd : ApiResponse),
      (w.curlRun = Except.ok pr → w.parseResponse = Except.ok rd →
        ((∀ c rest t, rd.content = some (c :: rest) → c.text = some t →
            callClaudeApi w = Except.ok t)
          ∧ ((rd.content = none ∨ rd.content = some []) →
              callClaudeApi w = Except.error ("Claude API error: " ++ rd.raw))))
      ∧ (∀ e, w.curlRun = Except.error e → callClaudeApi w = Except.error e)
      ∧ (∀ e, w.curlRun = Except.ok pr → w.parseResponse = Except.error e →
          callClaudeApi w = Except.error e) := by
  intro w pr rd
  refine ⟨fun hc hp => ⟨?_, ?_⟩, fun e hc => ?_, fun e hc hp => ?_⟩
  · intro c rest t hcont htext
    simp [callClaudeApi, hc, hp, hcont, htext]
  · intro hcase
    rcases hcase with h | h <;> simp [callClaudeApi, hc, hp, h]
  · simp [callClaudeApi, hc]
  · simp [callClaudeApi, hc, hp]

def wApi1 : ApiWorld :=
  ⟨Except.ok ⟨0, "body", ""⟩, Except.ok ⟨some [⟨some "hello"⟩], "rawresp"⟩⟩

def wApi2 : ApiWorld :=
  ⟨Except.ok ⟨0, "body", ""⟩, Except.ok ⟨none, "rawbody"⟩⟩

theorem callClaudeApi_content_extraction_witness :
    callClaudeApi wApi1 = Except.ok "hello"
    ∧ callClaudeApi wApi2 = Except.error ("Claude API error: " ++ "rawbody") :=
  ⟨((callClaudeApi_content_extraction wApi1 ⟨0, "body", ""⟩
        ⟨some [⟨some "hello"⟩], "rawresp"⟩).1 rfl rfl).1
      ⟨some "hello"⟩ [] "hello" rfl rfl,
    ((callClaudeApi_content_extraction wApi2 ⟨0, "body", ""⟩
        ⟨none, "rawbody"⟩).1 rfl rfl).2 (Or.inl rfl)⟩

/-! C7: `_read_key_files` (lines 157-189)

Each allow-listed file either does not exist, reads successfully, or
raises (the bare `except: pass` silently skips it); `read_text()` is a
world input per pattern.  The two workflow glob patterns share the
existence probe of their parent directory `.github/workflows`; their
match lists (relative path plus read outcome, in glob order) are world
inputs.  Recorded content is `read_text()[:5000]`, i.e. the first 5000
code points. -/

/-- Python `s[:n]`. -/
def pySlice (n : Nat) (s : String) : String := String.mk (s.data.take n)

structure KeyFS where
  readme : Option (Except String String)
  packageJson : Option (Except String String)
  requirementsTxt : Option (Except String String)
  pyprojectToml : Option (Except String String)
  cargoToml : Option (Except String String)
  workflowsDirExists : Bool
  ymlMatches : List (String × Except String String)
  yamlMatches : List (String × Except String String)

/-- Lines 181-187: a non-wildcard pattern contributes its truncated
content when the file exists and reads; otherwise nothing. -/
def readPlain (pat : String) (r : Option (Except String String)) :
    List (String × String) :=
  match r with
  | some (Except.ok c) => [(pat, pySlice 5000 c)]
  | some (Except.error _) => []
  | none => []

/-- Lines 172-180: a wildcard pattern contributes the truncated
contents of its readable matches when the parent directory exists. -/
def readGlob (dirExists : Bool) (ms : List (String × Except String String)) :
    List (String × String) :=
  if dirExists then
    ms.flatMap (fun m =>
      match m.2 with
      | Except.ok c => [(m.1, pySlice 5000 c)]
      | Except.error _ => [])
  else []

/-- The method `_read_key_files`, iterating the allow-list in source order. -/
def readKeyFiles (fs : KeyFS) : List (String × String) :=
  readPlain "README.md" fs.readme
  ++ readPlain "package.json" fs.packageJson
  ++ readPlain "requirements.txt" fs.requirementsTxt
  ++ readPlain "pyproject.toml" fs.pyprojectToml
  ++ readPlain "Cargo.toml" fs.cargoToml
  ++ readGlob fs.workflowsDirExists fs.ymlMatches
  ++ readGlob fs.workflowsDirExists fs.yamlMatches

/-- The attempted reads, in order: existing plain files and, when the
workflow directory exists, the glob matches. -/
def plainSource (pat : String) (r : Option (Except String String)) :
    List (String × Except String String) :=
  match r with
  | some e => [(pat, e)]
  | none => []

def keyFileSource (fs : KeyFS) : List (String × Except String String) :=
  plainSource "README.md" fs.readme
  ++ plainSource "package.json" fs.packageJson
  ++ plainSource "requirements.txt" fs.requirementsTxt
  ++ plainSource "pyproject.toml" fs.pyprojectToml
  ++ plainSource "Cargo.toml" fs.cargoToml
  ++ (if fs.workflowsDirExists then fs.ymlMatches ++ fs.yamlMatches else [])

/-- Successful reads are recorded truncated; raising reads are
dropped. -/
def truncRecord (kr : String × Except String String) : Option (String × String) :=
  match kr.2 with
  | Except.ok c => some (kr.1, pySlice 5000 c)
  | Except.error _ => none

theorem readPlain_eq (pat : String) (r : Option (Except String String)) :
    readPlain pat r = (plainSource pat r).filterMap truncRecord := by
  cases r with
  | none => rfl
  | some e => cases e <;> rfl

theorem flatMap_trunc (ms : List (String × Except String String)) :
    (ms.flatMap (fun m =>
      match m.2 with
      | Except.ok c => [(m.1, pySlice 5000 c)]
      | Except.error _ => [])) = ms.filterMap truncRecord := by
  induction ms with
  | nil => rfl
  | cons m rest ih =>
    obtain ⟨k, r⟩ := m
    cases r <;> simp [List.flatMap_cons, List.filterMap_cons, truncRecord, ih]

/-- C7: the recorded key files are exactly the successful reads with
content truncated by `pySlice 5000` (raising reads silently skipped,
nothing else raised); truncation leaves content of length at most 5000
unmodified and cuts longer content to exactly 5000 characters. -/
theorem readKeyFiles_truncation :
    ∀ fs : KeyFS,
      readKeyFiles fs = (keyFileSource fs).filterMap truncRecord
      ∧ (∀ c : String, 5000 < c.length → (pySlice 5000 c).length = 5000)
      ∧ (∀ c : String, c.length ≤ 5000 → pySlice 5000 c = c) := by
  intro fs
  refine ⟨?_, ?_, ?_⟩
  · obtain ⟨r1, r2, r3, r4, r5, wde, yml, yaml⟩ := fs
    simp only [readKeyFiles, keyFileSource, List.filterMap_append, readPlain_eq]
    cases wde with
    | true => simp [readGlob, flatMap_trunc, List.filterMap_append]
    | false => simp [readGlob]
  · intro c h
    have h1 : (pySlice 5000 c).length = (c.data.take 5000).length := rfl
    have h2 : 5000 < c.data.length := h
    rw [h1, List.length_take]
    omega
  · intro c h
    have h2 : c.data.length ≤ 5000 := h
    show String.mk (c.data.take 5000) = c
    rw [List.take_of_length_le h2]

theorem readKeyFiles_truncation_witness :
    (pySlice 5000 (String.mk (List.replicate 5001 'a'))).length = 5000
    ∧ pySlice 5000 "ab" = "ab" :=
  ⟨(readKeyFiles_truncation ⟨none, none, none, none, none, false, [], []⟩).2.1
      (String.mk (List.replicate 5001 'a'))
      (by show 5000 < (List.replicate 5001 'a').length
          rw [List.length_replicate]
          omega),
    (readKeyFiles_truncation ⟨none, none, none, none, none, false, [], []⟩).2.2
      "ab" (by decide)⟩

/-! C8: prompt assembly (`_call_claude_api` lines 202-227)

The prompt is a list of parts joined by newlines.  The part list is a
pure function of the inputs; the conditional sections mirror the
Python truthiness tests `if key_files:` and `if prompts:`. -/

/-- Line 225: `prompt.get('description', prompt.get('name', 'Unknown'))`
prefixed by the bullet. -/
def renderPromptLine (p : PromptEntry) : String :=
  "- " ++ (match p.description with
    | some d => d
    | none =>
      match p.name with
      | some nm => nm
      | none => "Unknown")

/-- Lines 202-226: the `prompt_parts` list. -/
def buildPromptParts (rn rt ft : String) (keyFiles : List (String × String))
    (prompts : List PromptEntry) : List String :=
  ["# Architecture Analysis for " ++ rn,
   "\nRepository Type: " ++ rt,
   "\n## File Structure\n```\n" ++ (ft ++ "\n```")]
  ++ (if keyFiles.isEmpty then [] else
      "\n## Key Files" ::
        keyFiles.map (fun kv => "\n### " ++ (kv.1 ++ ("\n```\n" ++ (kv.2 ++ "\n```")))))
  ++ ["\n## Analysis Request",
      "Generate comprehensive architecture documentation covering:",
      "1. System Overview",
      "2. Key Components",
      "3. Data Flow",
      "4. Technology Stack",
      "5. Deployment Architecture",
      "6. Security Considerations"]
  ++ (if prompts.isEmpty then [] else
      "\n## Specific Investigation Points" :: (prompts.take 5).map renderPromptLine)

/-- Line 227: `full_prompt = "\n".join(prompt_parts)`. -/
def fullPrompt (rn rt ft : String) (keyFiles : List (String × String))
    (prompts : List PromptEntry) : String :=
  String.intercalate "\n" (buildPromptParts rn rt ft keyFiles prompts)

/-- A string with a constant prefix differs from any string whose
character at some index inside the prefix differs. -/
theorem str_ne_of_prefix_get (a b t : String) (i : Nat) (c : Char)
    (ha : a.data[i]? = some c) (ht : ¬ t.data[i]? = some c) : ¬ (a ++ b = t) := by
  intro h
  apply ht
  have hlt : i < a.data.length := by
    by_contra hge
    rw [List.getElem?_eq_none (le_of_not_lt hge)] at ha
    exact Option.noConfusion ha
  rw [← h, String.data_append, List.getElem?_append, if_pos hlt, ha]

/-- C8: the `Specific Investigation Points` section is present exactly
when the prompt list is non-empty; only the first five entries affect
the assembled parts; an entry renders its description, falling back to
its name when the description is absent. -/
theorem buildPromptParts_investigation_section :
    ∀ (rn rt ft : String) (keyFiles : List (String × String))
      (prompts : List PromptEntry),
      (("\n## Specific Investigation Points" ∈ buildPromptParts rn rt ft keyFiles prompts)
        ↔ prompts ≠ [])
      ∧ buildPromptParts rn rt ft keyFiles prompts
          = buildPromptParts rn rt ft keyFiles (prompts.take 5)
      ∧ (∀ p d, p.description = some d → renderPromptLine p = "- " ++ d)
      ∧ (∀ p nm, p.description = none → p.name = some nm →
          renderPromptLine p = "- " ++ nm) := by
  intro rn rt ft keyFiles prompts
  refine ⟨⟨?_, ?_⟩, ?_, ?_, ?_⟩
  · intro hmem hnil
    subst hnil
    rcases List.mem_append.mp hmem with h123 | hS
    · rcases List.mem_append.mp h123 with h12 | h3
      · rcases List.mem_append.mp h12 with h1 | h2
        · rcases List.mem_cons.mp h1 with h | h1
          · exact str_ne_of_prefix_get "# Architecture Analysis for " rn
              "\n## Specific Investigation Points" 0 '#' (by decide) (by decide) h.symm
          rcases List.mem_cons.mp h1 with h | h1
          · exact str_ne_of_prefix_get "\nRepository Type: " rt
              "\n## Specific Investigation Points" 1 'R' (by decide) (by decide) h.symm
          rcases List.mem_cons.mp h1 with h | h1
          · exact str_ne_of_prefix_get "\n## File Structure\n```\n" (ft ++ "\n```")
              "\n## Specific Investigation Points" 4 'F' (by decide) (by decide) h.symm
          · simp at h1
        · revert h2
          cases hkf : keyFiles.isEmpty with
          | true => simp
          | false =>
            rw [if_neg Bool.false_ne_true]
            intro h2
            rcases List.mem_cons.mp h2 with h | h2
            · exact absurd h (by decide)
            · obtain ⟨kv, _, hkv⟩ := List.mem_map.mp h2
              exact str_ne_of_prefix_get "\n### " (kv.1 ++ ("\n```\n" ++ (kv.2 ++ "\n```")))
                "\n## Specific Investigation Points" 3 '#' (by decide) (by decide) hkv
      · exact absurd h3 (by decide)
    · simp at hS
  · intro hne
    cases prompts with
    | nil => exact absurd rfl hne
    | cons p ps =>
      exact List.mem_append_right _ (List.mem_cons_self _ _)
  · cases prompts with
    | nil => rfl
    | cons p ps =>
      unfold buildPromptParts
      rw [List.take_take, min_self]
      rfl
  · intro p d hd
    unfold renderPromptLine
    rw [hd]
  · intro p nm hd hn
    unfold renderPromptLine
    rw [hd, hn]

theorem buildPromptParts_investigation_section_witness :
    ("\n## Specific Investigation Points"
        ∈ buildPromptParts "r" "backend" "tree" [] [⟨some "security", none⟩])
    ∧ renderPromptLine ⟨some "nm", some "ds"⟩ = "- " ++ "ds"
    ∧ renderPromptLine ⟨some "nm", none⟩ = "- " ++ "nm" :=
  ⟨(buildPromptParts_investigation_section "r" "backend" "tree" []
      [⟨some "security", none⟩]).1.mpr (by simp),
    (buildPromptParts_investigation_section "r" "backend" "tree" [] []).2.2.1
      ⟨some "nm", some "ds"⟩ "ds" rfl,
    (buildPromptParts_investigation_section "r" "backend" "tree" [] []).2.2.2
      ⟨some "nm", none⟩ "nm" rfl rfl⟩

/-! C1, C2: the single-repository orchestrator (lines 27-126)

`analyze_repository` derives the name and output path, creates the
clone directory (line 54, *before* the `try`), then runs the pipeline
inside `try ... except Exception ... finally`.  The outer
`Except String` of the embedding models an exception escaping the
function; the `finally` cleanup is the unconditional reset of the
clone-directory flag.  Filesystem operations themselves are modelled
as reliable; whether the `mkdir` call raises is a world input (it can,
e.g. when a non-directory file occupies the path, since
`exist_ok=True` only tolerates an existing directory). -/

structure AnalysisResult where
  success : Bool
  repo_name : String
  output_file : Option String
  error : Option String
deriving DecidableEq

/-- The filesystem state the claims observe: whether this
per-invocation `clone_<name>` directory exists. -/
structure FSState where
  cloneDirExists : Bool
deriving DecidableEq

structure OrchWorld where
  mkdirResult : Except String Unit
  cloneRun : Except String ProcResult
  repoTree : List Entry
  keyFS : KeyFS
  promptsFS : PromptsFS
  api : ApiWorld
  writeResult : Except String Unit

/-- The `try` block, lines 56-112: clone (raising on non-zero exit
with the subprocess stderr), load the prompt catalog, build the tree
and key files, assemble the prompt, call the model, write the output
file, and return the success record.  Any `Except.error` is a raised
exception reaching the `except` clause. -/
def pipelineBody (w : OrchWorld) (rn rt outFile : String) :
    Except String AnalysisResult := do
  let res ← w.cloneRun
  if res.returncode ≠ 0 then
    throw ("Git clone failed: " ++ res.stderr)
  let pcfg ← loadPromptsConfig w.promptsFS
  let fileTree := buildFileTree w.repoTree
  let keyFiles := readKeyFiles w.keyFS
  let _prompt := fullPrompt rn rt fileTree keyFiles (pcfg.prompts.getD [])
  let _doc ← callClaudeApi w.api
  let _ ← w.writeResult
  pure { success := true, repo_name := rn, output_file := some outFile, error := none }

/-- The method `analyze_repository`: name derivation and `mkdir` happen before
the `try`, so a `mkdir` failure propagates; afterwards every pipeline
error is converted by the `except` clause into a failed record, and
the `finally` clause removes the clone directory on every path. -/
def analyzeRepository (w : OrchWorld) (repoUrl repoType outputDir : String)
    (s : FSState) : Except String (AnalysisResult × FSState) :=
  let rn := repoNameOf repoUrl
  let outFile := outputFileOf outputDir repoUrl
  match w.mkdirResult with
  | Except.error e => Except.error e
  | Except.ok _ =>
    let result :=
      match pipelineBody w rn repoType outFile with
      | Except.ok r => r
      | Except.error e =>
        { success := false, repo_name := rn, output_file := none, error := some e }
    Except.ok (result, { cloneDirExists := false })

def kfs0 : KeyFS := ⟨none, none, none, none, none, false, [], []⟩

def pfs0 : PromptsFS := ⟨false, false, false, Except.ok ⟨some []⟩, Except.ok ⟨some []⟩⟩

/-- A world in which the `clone_dir.mkdir` call of line 54 raises. -/
def wMkdirFail : OrchWorld :=
  ⟨Except.error "FileExistsError: clone dir path exists as a file",
    Except.ok ⟨0, "", ""⟩, [], kfs0, pfs0, wApi1, Except.ok ()⟩

/-- A world in which every external call succeeds. -/
def wAllOk : OrchWorld :=
  ⟨Except.ok (), Except.ok ⟨0, "", ""⟩, [], kfs0, pfs0, wApi1, Except.ok ()⟩

/-- C1, counterexample to the claim as stated: the `mkdir` of the
clone directory at line 54 sits before the `try` block, so its
failure escapes `analyze_repository` as an exception instead of being
converted into a failed `AnalysisResult`. -/
theorem analyzeRepository_mkdir_raise_counterexample :
    analyzeRepository wMkdirFail "https://h/r.git" "backend" "out" ⟨false⟩
      = Except.error "FileExistsError: clone dir path exists as a file" := rfl

/-- C1, amended: once the clone-directory creation has succeeded, the
call always returns an `AnalysisResult` (never raises): a pipeline
error `e` yields the failed record carrying exactly `e`, and a
pipeline success yields its success record unchanged. -/
theorem analyzeRepository_catches_after_mkdir :
    ∀ (w : OrchWorld) (url rt outDir : String) (s : FSState),
      w.mkdirResult = Except.ok () →
      (∃ r fs, analyzeRepository w url rt outDir s = Except.ok (r, fs))
      ∧ (∀ e, pipelineBody w (repoNameOf url) rt (outputFileOf outDir url)
            = Except.error e →
          analyzeRepository w url rt outDir s
            = Except.ok ({ success := false, repo_name := repoNameOf url,
                           output_file := none, error := some e },
                { cloneDirExists := false }))
      ∧ (∀ r, pipelineBody w (repoNameOf url) rt (outputFileOf outDir url)
            = Except.ok r →
          analyzeRepository w url rt outDir s
            = Except.ok (r, { cloneDirExists := false })) := by
  intro w url rt outDir s hmk
  refine ⟨?_, ?_, ?_⟩
  · simp only [analyzeRepository, hmk]
    exact ⟨_, _, rfl⟩
  · intro e he
    simp only [analyzeRepository, hmk, he]
  · intro r hr
    simp only [analyzeRepository, hmk, hr]

theorem analyzeRepository_catches_witness :
    analyzeRepository wAllOk "https://h/r.git" "backend" "out" ⟨false⟩
      = Except.ok ({ success := true, repo_name := repoNameOf "https://h/r.git",
                     output_file := some (outputFileOf "out" "https://h/r.git"),
                     error := none },
          { cloneDirExists := false }) :=
  (analyzeRepository_catches_after_mkdir wAllOk "https://h/r.git" "backend" "out"
    ⟨false⟩ rfl).2.2 _ rfl

/-- C2: whenever `analyze_repository` returns (rather than raising),
the clone working directory does not exist in the resulting state —
the `finally` clause runs on the success path and on every caught
failure path. -/
theorem analyzeRepository_cleanup :
    ∀ (w : OrchWorld) (url rt outDir : String) (s : FSState)
      (r : AnalysisResult) (fs : FSState),
      analyzeRepository w url rt outDir s = Except.ok (r, fs) →
      fs.cloneDirExists = false := by
  intro w url rt outDir s r fs h
  unfold analyzeRepository at h
  revert h
  cases w.mkdirResult with
  | error e => intro h; exact Except.noConfusion h
  | ok u =>
    intro h
    injection h with h1
    have h2 : ({ cloneDirExists := false } : FSState) = fs := congrArg Prod.snd h1
    rw [← h2]

theorem analyzeRepository_cleanup_witness :
    analyzeRepository wAllOk "https://h/r.git" "backend" "out" ⟨true⟩
        = Except.ok ({ success := true, repo_name := repoNameOf "https://h/r.git",
                       output_file := some (outputFileOf "out" "https://h/r.git"),
                       error := none },
            { cloneDirExists := false })
    ∧ FSState.cloneDirExists { cloneDirExists := false } = false :=
  ⟨rfl, analyzeRepository_cleanup wAllOk "https://h/r.git" "backend" "out" ⟨true⟩ _ _ rfl⟩

/-! C3: the batch driver `analyze_all_repositories` (lines 265-310)

The loop of lines 290-296 awaits `analyze_repository` for each config
entry and appends the result.  The per-repository call is passed in as
a function returning `Except String AnalysisResult`, because (C1) the
orchestrator can raise; a raised exception aborts the whole loop. -/

/-- One entry of the `repositories` config mapping: the `url` and
`type` keys (`rtype` here, since `type` names the JSON key). -/
structure RepoCfg where
  url : String
  rtype : String

/-- The `for repo_name, repo_config in repos.items()` loop with its
`results` accumulator. -/
def analyzeAllLoop (analyze : String → String → Except String AnalysisResult) :
    List (String × RepoCfg) → List AnalysisResult →
      Except String (List AnalysisResult)
  | [], results => Except.ok results
  | (_, cfg) :: rest, results =>
    match analyze cfg.url cfg.rtype with
    | Except.error e => Except.error e
    | Except.ok r => analyzeAllLoop analyze rest (results ++ [r])

/-- The driver `analyze_all_repositories`, reduced to its result-producing core:
iterate the config mapping in order, accumulating one result per
entry. -/
def analyzeAllRepositories
    (analyze : String → String → Except String AnalysisResult)
    (repos : List (String × RepoCfg)) : Except String (List AnalysisResult) :=
  analyzeAllLoop analyze repos []

theorem analyzeAllLoop_ok (f : String → String → AnalysisResult) :
    ∀ (repos : List (String × RepoCfg)) (acc : List AnalysisResult),
      analyzeAllLoop (fun u t => Except.ok (f u t)) repos acc
        = Except.ok (acc ++ repos.map (fun e => f e.2.url e.2.rtype)) := by
  intro repos
  induction repos with
  | nil => intro acc; simp [analyzeAllLoop]
  | cons e rest ih =>
    intro acc
    obtain ⟨nm, cfg⟩ := e
    simp [analyzeAllLoop, ih]

/-- C3, amended: provided every per-repository invocation returns an
`AnalysisResult` (it can raise only through the pre-`try` clone
directory creation, cf. C1), the driver returns exactly the list of
per-entry results in config iteration order — one per entry, each a
function of its own entry alone, so a failed result for one
repository never prevents later entries from being processed. -/
theorem analyzeAllRepositories_ordered :
    ∀ (f : String → String → AnalysisResult) (repos : List (String × RepoCfg)),
      analyzeAllRepositories (fun u t => Except.ok (f u t)) repos
          = Except.ok (repos.map (fun e => f e.2.url e.2.rtype))
      ∧ (repos.map (fun e => f e.2.url e.2.rtype)).length = repos.length := by
  intro f repos
  refine ⟨?_, by simp⟩
  have h := analyzeAllLoop_ok f repos []
  simpa [analyzeAllRepositories] using h

/-- The per-repository call the driver actually makes, in a world
where the clone-directory creation raises. -/
def raisingAnalyze (url rt : String) : Except String AnalysisResult :=
  (analyzeRepository wMkdirFail url rt "out" ⟨false⟩).map Prod.fst

/-- C3, counterexample to the claim as stated: when the first
orchestrator call of a repository raises (mkdir failure escaping, cf.
C1), the batch driver produces no result list at all — neither entry
gets an `AnalysisResult` and the second repository is never
processed. -/
theorem analyzeAllRepositories_raise_counterexample :
    analyzeAllRepositories raisingAnalyze
        [("a", ⟨"https://h/a", "backend"⟩), ("b", ⟨"https://h/b", "backend"⟩)]
      = Except.error "FileExistsError: clone dir path exists as a file" := rfl
